import Mathlib

/-!
# Verification of the rohini MOSDAC crawler / indexer / chatbot

A shallow embedding of the algorithmic core of the repository:

* `src/indexer.py`  — `MOSDACIndexer.clean_text`, `clean_url`, `index_document`, `search`
* `src/scraper.py`  — `MOSDACScraper.determine_category`, `extract_content`, `crawl_page`
* `src/chatbot.py`  — `MOSDACChatbot.calculate_relevance`, `summarize_results`

Python strings are modelled as lists of characters (`Str`).  Python's float
scores are modelled as exact rationals (`ℚ`); every constant in the scoring
code (3.0, 2.0, 1.5, 1.0, 0.5, 0.3, 0.2) is a short decimal, and the claims
under verification are about the scoring logic, not binary rounding.

External collaborators (PostgreSQL, Selenium, BeautifulSoup, NLTK, textwrap)
are modelled as explicit environment parameters; everything the repository
itself computes is translated from the source.
-/

-- Allow kernel evaluation of concrete rational arithmetic in `decide`
-- proofs (these core operations are sealed by default).
unseal Rat.add Rat.mul Rat.inv Rat.sub

/-- Python strings, modelled as lists of characters. -/
abbrev Str := List Char

/-- Python `s.lower()`. -/
def lower (s : Str) : Str := s.map Char.toLower

/-- The single-quote (apostrophe) character, used by the chatbot's
user-facing messages. -/
def squote : Char := Char.ofNat 39

/-! ## Python string primitives -/

/-- Worker for `words`: `cur` is the current in-progress word, reversed. -/
def wordsAux (cur : Str) : Str → List Str
  | [] => if cur.isEmpty then [] else [cur.reverse]
  | c :: cs =>
    if c.isWhitespace then
      if cur.isEmpty then wordsAux [] cs else cur.reverse :: wordsAux [] cs
    else wordsAux (c :: cur) cs

/-- Python `s.split()` with no separator: split on whitespace runs,
dropping empty pieces. -/
def words (s : Str) : List Str := wordsAux [] s

/-- Index of the first occurrence of `pat` in a string, if any
(worker for `strFind`). -/
def findIdx? (pat : Str) : Str → Option Nat
  | [] => if pat.isEmpty then some 0 else none
  | c :: s => if pat <+: (c :: s) then some 0 else (findIdx? pat s).map (· + 1)

/-- Python `s.find(pat)`: offset of the first occurrence of `pat` in `s`,
or `-1` when `pat` does not occur. -/
def strFind (s pat : Str) : Int :=
  match findIdx? pat s with
  | some n => (n : Int)
  | none => -1

/-- Python `s.rstrip('/')`: remove every trailing `'/'`. -/
def rstripSlash (u : Str) : Str := (u.reverse.dropWhile (fun c => c = '/')).reverse

/-- Python `url.split('?')[0]`: everything strictly before the first `'?'`. -/
def beforeQuery : Str → Str
  | [] => []
  | c :: s => if c = '?' then [] else c :: beforeQuery s

/-! ## `MOSDACIndexer.clean_text` (src/indexer.py 146-152) -/

/-- Characters kept by `re.sub(r'[^\w\s.,!?-]', '', text)`:
word characters (`\w`, i.e. alphanumerics and underscore), whitespace and
`. , ! ? -`.  (ASCII reading of `\w`; nothing in the claims depends on
exotic Unicode word characters.) -/
def keepChar (c : Char) : Bool :=
  c.isAlphanum || c = '_' || c.isWhitespace ||
    c = '.' || c = ',' || c = '!' || c = '?' || c = '-'

/-- Worker for `re.sub(r'\s+', ' ', text)`: replace each maximal whitespace
run by a single space.  `prevWs` records whether the previous character was
part of a whitespace run. -/
def collapseWsAux (prevWs : Bool) : Str → Str
  | [] => []
  | c :: s =>
    if c.isWhitespace then
      if prevWs then collapseWsAux true s else ' ' :: collapseWsAux true s
    else c :: collapseWsAux false s

/-- Python `s.strip()`: drop leading and trailing whitespace. -/
def stripWs (s : Str) : Str :=
  ((s.dropWhile Char.isWhitespace).reverse.dropWhile Char.isWhitespace).reverse

/-- Embedding of `MOSDACIndexer.clean_text` (src/indexer.py 146-152): collapse whitespace
runs to single spaces, drop characters outside `[\w\s.,!?-]`, then strip. -/
def clean_text (t : Str) : Str :=
  stripWs ((collapseWsAux false t).filter keepChar)

/-! ## `MOSDACIndexer.clean_url` (src/indexer.py 154-161) -/

/-- The "essential" query-parameter markers of `clean_url`. -/
def essentialParams : List Str := ["id=".data, "page=".data, "view=".data]

/-- Embedding of `MOSDACIndexer.clean_url` (src/indexer.py 154-161): strip trailing
slashes, then drop the query string unless one of `id=`, `page=`, `view=`
occurs somewhere in the (stripped) URL. -/
def clean_url (url : Str) : Str :=
  let url := rstripSlash url
  if '?' ∈ url ∧ ¬ essentialParams.any (fun p => decide (p <:+: url)) then
    beforeQuery url
  else url

/-! ## `MOSDACScraper.determine_category` (src/scraper.py 192-207) -/

/-- Embedding of `MOSDACScraper.determine_category` (src/scraper.py 192-207). -/
def determine_category (url : Str) : Str :=
  let u := lower url
  if "/missions/".data <:+: u then "missions".data
  else if "/catalog/".data <:+: u then "catalog".data
  else if "/galleries/".data <:+: u then "galleries".data
  else if "/data-access/".data <:+: u then "data_access".data
  else if "/reports/".data <:+: u then "reports".data
  else if "/services/".data <:+: u then "services".data
  else "other".data

-- sanity checks of the embedding on concrete inputs
example : clean_url "http://m/a/?q=1".data = "http://m/a/".data := by decide
example : clean_url "http://m/a?id=3".data = "http://m/a?id=3".data := by decide
example : clean_url "http://m/a///".data = "http://m/a".data := by decide
example : determine_category "http://m/catalog/x".data = "catalog".data := by decide
example : words "  ab  cd ".data = ["ab".data, "cd".data] := by decide
example : strFind "abcab".data "ab".data = 0 := by decide
example : strFind "abcab".data "zz".data = -1 := by decide
example : clean_text "  a,b $  c ".data = "a,b  c".data := by decide

/-! ## Documents

The document dictionary as produced by `MOSDACScraper.extract_content` and
consumed by the indexer and chatbot.  JSON-payload fields that no claim
touches (`tables`, `aria_labels`, `announcements`, `services`,
`satellite_data`, `crawl_timestamp`) are omitted.  `relevance` is the key
that `MOSDACChatbot.summarize_results` writes into the dictionary; `none`
models its absence. -/
structure Doc where
  url : Str := []
  title : Str := []
  meta_description : Str := []
  text_content : Str := []
  category : Str := []
  links : List Str := []
  relevance : Option ℚ := none
deriving DecidableEq

/-- Python `doc.get('relevance', 0)`. -/
def relOf (d : Doc) : ℚ := d.relevance.getD 0

/-! ## `MOSDACChatbot.calculate_relevance` (src/chatbot.py 85-132)

`preprocess_query` (src/chatbot.py 34-50) lower-cases, tokenizes with NLTK,
drops stop words and non-alphanumeric tokens and lemmatizes; tokenization,
the stop-word list and the lemmatizer live in the external NLTK library, so
the whole query preprocessor is an environment parameter `preprocess` and
every theorem below quantifies over it. -/

/-- Per-keyword title contribution (src/chatbot.py 90-96):
`+3.0` for an exact substring match, else `+2.0` when the keyword is a
substring of some whitespace-separated word of the title. -/
def titleScore (title : Str) (k : Str) : ℚ :=
  if k <:+: title then 3
  else if (words title).any (fun w => decide (k <:+: w)) then 2
  else 0

/-- Per-keyword description contribution (src/chatbot.py 98-105):
`+1.5` exact, else `+1.0` partial. -/
def descScore (desc : Str) (k : Str) : ℚ :=
  if k <:+: desc then 3/2
  else if (words desc).any (fun w => decide (k <:+: w)) then 1
  else 0

/-- The proximity bonus loop of src/chatbot.py 112-117: for each *other*
keyword, `+0.3` when `abs(content.find(keyword) - content.find(other)) < 50`.
Note that this is exactly Python's arithmetic: `find` yields `-1` for an
absent keyword, and `-1` participates in the subtraction. -/
def proximityBonus (content : Str) (keywords : List Str) (k : Str) : ℚ :=
  (keywords.map (fun k2 =>
    if k2 ≠ k ∧ (strFind content k - strFind content k2).natAbs < 50
    then 3/10 else 0)).sum

/-- Per-keyword content contribution (src/chatbot.py 107-117): `+0.5` when
the keyword occurs in the content, plus the proximity bonuses. -/
def contentScore (content : Str) (keywords : List Str) (k : Str) : ℚ :=
  if k <:+: content then 1/2 + proximityBonus content keywords k else 0

/-- Per-keyword category contribution (src/chatbot.py 119-123). -/
def categoryScore (cat : Str) (k : Str) : ℚ :=
  if k <:+: cat then 2 else 0

/-- Embedding of `MOSDACChatbot.calculate_relevance` (src/chatbot.py 85-132).
`preprocess` stands for `self.preprocess_query` (NLTK-backed, see above) and
`context_history` for `self.context_history`. -/
def calculate_relevance (preprocess : Str → List Str)
    (context_history : List Str) (doc : Doc) (keywords : List Str) : ℚ :=
  (keywords.map (titleScore (lower doc.title))).sum
    + (keywords.map (descScore (lower doc.meta_description))).sum
    + (keywords.map (contentScore (lower doc.text_content) keywords)).sum
    + (keywords.map (categoryScore (lower doc.category))).sum
    + (context_history.map (fun c =>
        ((preprocess c).map (fun k =>
          if k <:+: lower doc.text_content then (1/5 : ℚ) else 0)).sum)).sum

/-! ## `MOSDACChatbot.summarize_results` (src/chatbot.py 134-209)

Python's `results.sort(key=lambda x: x.get('relevance', 0), reverse=True)`
is a *stable* descending sort, and a stable sort's output is uniquely
determined by the key, so it is embedded as a stable insertion sort. -/

/-- Stable descending insert: the inserted element goes past every element
with a strictly larger key and lands before the first element whose key is
`≤` its own.  The element being inserted preceded the list elements in the
original order, so on a tie it stays in front of them — Python's stable
`sort(..., reverse=True)` behaviour. -/
def insertDesc (a : Doc) : List Doc → List Doc
  | [] => [a]
  | b :: l => if relOf a < relOf b then b :: insertDesc a l else a :: b :: l

/-- Stable sort by `relevance` descending, as performed in place on the
caller's list by src/chatbot.py 146. -/
def sortDesc : List Doc → List Doc
  | [] => []
  | a :: l => insertDesc a (sortDesc l)

/-- The ordered grouping dict of src/chatbot.py 156-161: Python dicts
preserve insertion order. -/
def addToGroups (groups : List (Str × List Doc)) (cat : Str) (d : Doc) :
    List (Str × List Doc) :=
  if groups.any (fun g => g.1 = cat) then
    groups.map (fun g => if g.1 = cat then (g.1, g.2 ++ [d]) else g)
  else groups ++ [(cat, [d])]

/-- The `categorized_results` dict of src/chatbot.py 156-161. -/
def categorize (docs : List Doc) : List (Str × List Doc) :=
  docs.foldl (fun gs d => addToGroups gs d.category d) []

/-- Python `"\n".join`. -/
def joinNL : List Str → Str
  | [] => []
  | [s] => s
  | s :: rest => s ++ '\n' :: joinNL rest

/-- Decimal digits of a natural number, for rendering the confidence
percentage and the result count. -/
def natStr (n : Nat) : Str := Nat.toDigits 10 n

/-- The no-results message of src/chatbot.py 136. -/
def noResultsMsg (q : Str) : Str :=
  "I couldn".data ++ squote :: "t find any information about ".data
    ++ squote :: q ++ squote :: " in the MOSDAC database.".data

/-- The low-relevance message of src/chatbot.py 153. -/
def lowRelMsg (q : Str) : Str :=
  "I found some results, but none were relevant enough to your query about ".data
    ++ squote :: q ++ squote :: ".".data

/-- Python `int()` applied to a rational: truncation toward zero. -/
def pyInt (q : ℚ) : Int := if q < 0 then ⌈q⌉ else ⌊q⌋

/-- Rendering of a (here always nonnegative) integer, `f"{n}"`. -/
def intStr (n : Int) : Str :=
  if n < 0 then '-' :: natStr n.natAbs else natStr n.natAbs

/-- The per-document lines appended by src/chatbot.py 169-207.
`extractKey` stands for `extract_key_sentences` (whose sentence and word
tokenizers come from NLTK) and `wrap` for `textwrap.fill(·, width=80)`;
both are environment parameters.  The `'No title'` / `'No description
available'` defaults of `doc.get` only fire for dictionaries missing the
key, which the pipeline never produces; the model's fields are always
present. -/
def docBlock (extractKey : Str → List Str) (wrap : Str → Str)
    (keywords : List Str) (d : Doc) : List Str :=
  let keySentences := extractKey d.text_content
  let relevantLinks := d.links.filter
    (fun l => keywords.any (fun k => decide (lower k <:+: lower l)))
  ("\n• ".data ++ d.title)
    :: ((if d.meta_description ≠ [] then
          ["  ".data ++ wrap d.meta_description] else [])
    ++ (if keySentences ≠ [] then
          "  Key points:".data
            :: keySentences.map (fun s => "  - ".data ++ wrap s)
        else [])
    ++ (if relevantLinks ≠ [] then
          "  Relevant links:".data
            :: (relevantLinks.take 3).map (fun l => "  - ".data ++ l)
        else [])
    ++ (match d.relevance with
        | none => []
        | some r =>
          let confidence := min 100 (pyInt (r * 20))
          if 50 ≤ confidence then
            ["  Confidence: ".data ++ intStr confidence ++ "%".data]
          else []))

/-- One category group of src/chatbot.py 167-168: the `📌` header followed
by each document's block. -/
def groupBlock (extractKey : Str → List Str) (wrap : Str → Str)
    (keywords : List Str) (g : Str × List Doc) : List Str :=
  ("\n📌 ".data ++ g.1.map Char.toUpper ++ ":".data)
    :: g.2.foldr (fun d acc => docBlock extractKey wrap keywords d ++ acc) []

/-- Embedding of `MOSDACChatbot.summarize_results` (src/chatbot.py 134-209), with the
in-place effects made explicit: the returned pair is (the returned string,
the caller's `results` list after the call).  The Python function sets
`doc['relevance']` on every element and sorts the caller's list in place;
the later filtering rebinds the local name only, so the caller observes the
full sorted, relevance-annotated list. -/
def summarize_results (preprocess : Str → List Str)
    (extractKey : Str → List Str) (wrap : Str → Str)
    (context_history : List Str) (results : List Doc) (query : Str) :
    Str × List Doc :=
  if results.isEmpty then (noResultsMsg query, results)
  else
    let keywords := preprocess query
    let withRel := results.map (fun d =>
      { d with
          relevance := some (calculate_relevance preprocess context_history d keywords) })
    let sorted := sortDesc withRel
    let kept := sorted.filter (fun d => decide ((1 : ℚ)/2 ≤ relOf d))
    if kept.isEmpty then (lowRelMsg query, sorted)
    else
      let header := "I found ".data ++ natStr kept.length
        ++ " relevant results about your query:\n".data
      let body := (categorize kept).foldr
        (fun g acc => groupBlock extractKey wrap keywords g ++ acc) []
      (joinNL (header :: body), sorted)

-- sanity: the user-facing messages at a concrete query (lengths of the
-- Python originals: 65 and 76 characters for query `x`)
example : (noResultsMsg "x".data).length = 65 := by decide
example : (lowRelMsg "x".data).length = 76 := by decide
example : natStr 107 = "107".data := by decide

/-! ## `MOSDACIndexer.search` (src/indexer.py 186-227)

The PostgreSQL round trip (`plainto_tsquery` matching, `ts_rank_cd`
ordering, the category filter, the `LIMIT`) happens inside the store, so
the store is an environment parameter that receives exactly what the code
hands it — the `clean_text`-normalized query, the optional category and the
size — and either returns a row list or raises.  The `except` branch of the
source logs the exception and returns `[]`. -/
def search (store : Str → Option Str → Nat → Except String (List Doc))
    (query : Str) (category : Option Str) (size : Nat) : List Doc :=
  match store (clean_text query) category size with
  | .ok results => results
  | .error _ => []

/-! ## `MOSDACIndexer.index_document` (src/indexer.py 104-144)

The transformation the indexer applies to a document before upserting it:
text fields are `clean_text`-normalized when non-empty (`if field in
document and document[field]:`), the `links` entries are filtered for
truthiness and `clean_url`-normalized.  The `url` key is not touched.
(The `crawl_timestamp` ISO-parse and the JSONB wrapping concern fields not
modelled here.) -/
def index_document (d : Doc) : Doc :=
  { d with
      title := if d.title.isEmpty then d.title else clean_text d.title,
      text_content := if d.text_content.isEmpty then d.text_content else clean_text d.text_content,
      meta_description := if d.meta_description.isEmpty then d.meta_description else clean_text d.meta_description,
      links := (d.links.filter (fun l => ¬ l.isEmpty)).map clean_url }

/-! ## `MOSDACScraper.crawl_page` (src/scraper.py 209-243)

The rendered web is the environment: for each URL, whether
`driver.get`/`WebDriverWait`/parsing succeeds (`fetchOk`), and the page
payload that `extract_content` reads out of the parsed soup — title, meta
description, main text and the (urljoin-resolved, domain-filtered) link
list.  What `extract_content` computes itself is embedded: the document's
`url` field is the crawl URL verbatim (src/scraper.py 126) and `category`
is `determine_category url` (src/scraper.py 137). -/
structure CrawlPage where
  fetchOk : Bool := true
  title : Str := []
  meta_description : Str := []
  text_content : Str := []
  links : List Str := []

/-- Embedding of `MOSDACScraper.extract_content` (src/scraper.py 123-190), restricted to
the modelled fields. -/
def extract_content (env : Str → CrawlPage) (url : Str) : Doc :=
  { url := url
    title := (env url).title
    meta_description := (env url).meta_description
    text_content := (env url).text_content
    category := determine_category url
    links := (env url).links
    relevance := none }

/-- The mutable crawl session: `self.visited_urls` (a Python set, modelled
as a duplicate-free list) and `self.content_data`. -/
structure CrawlState where
  visited : List Str := []
  content_data : List Doc := []
deriving DecidableEq

/-- The `for link in content['links']` loop of src/scraper.py 238-240:
traverse the children left to right, skipping links already visited,
threading the session state. -/
def crawlLinks (crawl : Str → CrawlState → Option CrawlState) :
    List Str → CrawlState → Option CrawlState
  | [], st => some st
  | l :: ls, st =>
    if l ∈ st.visited then crawlLinks crawl ls st
    else
      match crawl l st with
      | none => none
      | some st2 => crawlLinks crawl ls st2

/-- Embedding of `MOSDACScraper.crawl_page` (src/scraper.py 209-243).  The `fuel` is the
only thing added to the source: it bounds the recursion depth so the
function is total by construction, and the termination theorem below shows
that `max_depth + 1 - depth` units of fuel always suffice — i.e. that the
source's recursion, whose calls use `depth + 1` and stop at
`depth > max_depth`, terminates on every link graph.  A `none` result means
the fuel ran out before the depth guard fired.  A fetch/render failure is
the `except` branch: the URL stays visited, nothing is appended, the
subtree is abandoned. -/
def crawl_page (env : Str → CrawlPage) (max_depth : Nat) :
    Nat → Str → Nat → CrawlState → Option CrawlState
  | 0, url, depth, st =>
    if url ∈ st.visited ∨ max_depth < depth then some st else none
  | fuel + 1, url, depth, st =>
    if url ∈ st.visited ∨ max_depth < depth then some st
    else
      let st1 : CrawlState := { st with visited := url :: st.visited }
      if (env url).fetchOk then
        let doc := extract_content env url
        let st2 : CrawlState :=
          { st1 with content_data := st1.content_data ++ [doc] }
        crawlLinks (fun l s => crawl_page env max_depth fuel l (depth + 1) s)
          doc.links st2
      else some st1

/-! ## Helper lemmas: trailing-slash stripping and substring transfer -/

/-- Claim-side trailing-slash stripper, defined independently of
`rstripSlash` by direct recursion: remove every trailing `'/'`. -/
def rstripAll : Str → Str
  | [] => []
  | c :: s =>
    let r := rstripAll s
    if r.isEmpty ∧ c = '/' then [] else c :: r

theorem rstripAll_snoc (xs : Str) (x : Char) :
    rstripAll (xs ++ [x]) = if x = '/' then rstripAll xs else xs ++ [x] := by
  induction xs with
  | nil =>
    by_cases hx : x = '/' <;> simp [rstripAll, hx]
  | cons c xs ih =>
    simp only [List.cons_append, rstripAll, List.append_eq] at ih ⊢
    rw [ih]
    by_cases hx : x = '/'
    · simp [hx]
    · have hne : ¬ (xs ++ [x]).isEmpty := by simp
      simp [hx, hne]

theorem rstripSlash_snoc (xs : Str) (x : Char) :
    rstripSlash (xs ++ [x]) = if x = '/' then rstripSlash xs else xs ++ [x] := by
  by_cases hx : x = '/'
  · simp [rstripSlash, hx, List.dropWhile_cons]
  · simp [rstripSlash, List.dropWhile_cons, hx]

/-- The two implementations of "strip all trailing slashes" agree. -/
theorem rstripSlash_eq_rstripAll (u : Str) : rstripSlash u = rstripAll u := by
  induction u using List.reverseRecOn with
  | nil => rfl
  | append_singleton xs x ih => rw [rstripSlash_snoc, rstripAll_snoc, ih]

/-- A string is its slash-stripped form followed by some run of slashes. -/
theorem rstripSlash_decomp (u : Str) :
    ∃ k, u = rstripSlash u ++ List.replicate k '/' := by
  refine ⟨(u.reverse.takeWhile (fun c => c = '/')).length, ?_⟩
  have hrep : u.reverse.takeWhile (fun c => c = '/') =
      List.replicate (u.reverse.takeWhile (fun c => c = '/')).length '/' := by
    apply List.eq_replicate_of_mem
    intro b hb
    simpa using List.mem_takeWhile_imp hb
  conv_lhs => rw [← u.reverse_reverse,
    ← List.takeWhile_append_dropWhile (fun c => c = '/') u.reverse]
  rw [List.reverse_append]
  unfold rstripSlash
  rw [congrArg List.reverse hrep, List.reverse_replicate]

/-- Character membership is unchanged by stripping trailing slashes, for
characters other than `'/'`. -/
theorem mem_rstripSlash {c : Char} (hc : c ≠ '/') (u : Str) :
    c ∈ rstripSlash u ↔ c ∈ u := by
  obtain ⟨k, hk⟩ := rstripSlash_decomp u
  constructor
  · intro h; rw [hk]; exact List.mem_append_left _ h
  · intro h
    rw [hk, List.mem_append] at h
    rcases h with h | h
    · exact h
    · exact absurd (List.eq_of_mem_replicate h) hc

theorem infix_of_infix_snoc {m xs : Str} {c : Char}
    (hc : c ∉ m) (h : m <:+: xs ++ [c]) : m <:+: xs := by
  obtain ⟨s, t, hst⟩ := h
  rcases List.eq_nil_or_concat t with rfl | ⟨t', c', rfl⟩
  · rcases List.eq_nil_or_concat m with rfl | ⟨m', cm, rfl⟩
    · exact List.nil_infix
    · exfalso
      rw [List.concat_eq_append] at hc
      rw [List.append_nil, List.concat_eq_append, ← List.append_assoc] at hst
      have h2 := List.append_inj' hst rfl
      have hcm : cm = c := by simpa using h2.2
      subst hcm
      exact hc (List.mem_append_right m' (by simp))
  · rw [List.concat_eq_append, ← List.append_assoc] at hst
    have h2 := List.append_inj' hst rfl
    exact ⟨s, t', h2.1⟩

theorem infix_append_replicate {m a : Str} {c : Char} (hc : c ∉ m) (k : Nat)
    (h : m <:+: a ++ List.replicate k c) : m <:+: a := by
  induction k with
  | zero => simpa using h
  | succ k ih =>
    apply ih
    rw [List.replicate_succ', ← List.append_assoc] at h
    exact infix_of_infix_snoc hc h

/-- Substring occurrence of a slash-free pattern is unchanged by stripping
trailing slashes. -/
theorem infix_rstripSlash {m : Str} (hm : '/' ∉ m) (u : Str) :
    m <:+: rstripSlash u ↔ m <:+: u := by
  obtain ⟨k, hk⟩ := rstripSlash_decomp u
  constructor
  · intro h; rw [hk]; exact h.trans (List.infix_append' [] _ _)
  · intro h; rw [hk] at h; exact infix_append_replicate hm k h

theorem beforeQuery_eq_takeWhile (s : Str) :
    beforeQuery s = s.takeWhile (fun c => c != '?') := by
  induction s with
  | nil => rfl
  | cons c s ih =>
    by_cases hc : c = '?' <;> simp [beforeQuery, List.takeWhile_cons, hc, ih]

/-- Claim C10 reading of the URL cleaner, written from the claim text: strip
all trailing slashes; drop everything from the first `'?'` on if and only
if the *original* URL contains a `'?'` and none of `id=`, `page=`, `view=`
occurs anywhere in the *original* URL. -/
def clean_url_claim (url : Str) : Str :=
  let stripped := rstripAll url
  if '?' ∈ url ∧
      ¬ ("id=".data <:+: url ∨ "page=".data <:+: url ∨ "view=".data <:+: url)
  then stripped.takeWhile (fun c => c != '?')
  else stripped

/-- C10: `MOSDACIndexer.clean_url` strips all trailing `'/'` characters and
drops the query string (from the first `'?'` on) exactly when the URL
contains a `'?'` and none of `id=`, `page=`, `view=` occurs anywhere in the
URL.  The code tests `'?'` membership and the markers on the
already-stripped URL; the equivalence with the claim's original-URL reading
holds because stripping trailing slashes cannot create or destroy a `'?'`
or any of the three slash-free markers. -/
theorem clean_url_matches_claim (u : Str) : clean_url u = clean_url_claim u := by
  simp only [clean_url, clean_url_claim]
  rw [← rstripSlash_eq_rstripAll, ← beforeQuery_eq_takeWhile]
  have hq : ('?' ∈ rstripSlash u) ↔ ('?' ∈ u) := mem_rstripSlash (by decide) u
  have h1 : ("id=".data <:+: rstripSlash u) ↔ "id=".data <:+: u :=
    infix_rstripSlash (by decide) u
  have h2 : ("page=".data <:+: rstripSlash u) ↔ "page=".data <:+: u :=
    infix_rstripSlash (by decide) u
  have h3 : ("view=".data <:+: rstripSlash u) ↔ "view=".data <:+: u :=
    infix_rstripSlash (by decide) u
  apply if_congr _ rfl rfl
  simp only [essentialParams, List.any_cons, List.any_nil, Bool.or_eq_true,
    decide_eq_true_eq, Bool.or_false, hq, h1, h2, h3]

/-! ## C5: category classification -/

/-- The fixed marker → category table of src/scraper.py 195-206, in source
order. -/
def categoryMarkers : List (Str × Str) :=
  [("/missions/".data, "missions".data),
   ("/catalog/".data, "catalog".data),
   ("/galleries/".data, "galleries".data),
   ("/data-access/".data, "data_access".data),
   ("/reports/".data, "reports".data),
   ("/services/".data, "services".data)]

/-- Claim-side first-match semantics: scan the marker table in order,
return the category of the first marker that is a substring of the
lower-cased URL, else `other`. -/
def firstMarker : List (Str × Str) → Str → Str
  | [], _ => "other".data
  | p :: ps, u => if p.1 <:+: u then p.2 else firstMarker ps u

/-- C5: `determine_category` is a total, deterministic, pure function of
the URL alone (it is a Lean function of `url` and of nothing else), it
returns the category of the *first* marker of the fixed table
`/missions/, /catalog/, /galleries/, /data-access/, /reports/, /services/`
that is a substring of the lower-cased URL, and it returns `other` exactly
when no marker occurs.  Stability across repeated calls and independence
of crawl order are immediate: the embedding is a pure function. -/
theorem determine_category_first_match (url : Str) :
    determine_category url = firstMarker categoryMarkers (lower url) ∧
    (determine_category url = "other".data ↔
      ∀ p ∈ categoryMarkers, ¬ (p.1 <:+: lower url)) := by
  constructor
  · simp only [determine_category, categoryMarkers, firstMarker]
  · simp only [determine_category, categoryMarkers]
    constructor
    · intro h
      split_ifs at h with h1 h2 h3 h4 h5 h6
      · exact absurd h (by decide)
      · exact absurd h (by decide)
      · exact absurd h (by decide)
      · exact absurd h (by decide)
      · exact absurd h (by decide)
      · exact absurd h (by decide)
      · intro p hp
        simp only [List.mem_cons, List.not_mem_nil, or_false] at hp
        rcases hp with rfl | rfl | rfl | rfl | rfl | rfl <;> assumption
    · intro h
      split_ifs with h1 h2 h3 h4 h5 h6
      · exact absurd h1 (by simpa using h ("/missions/".data, "missions".data) (by simp))
      · exact absurd h2 (by simpa using h ("/catalog/".data, "catalog".data) (by simp))
      · exact absurd h3 (by simpa using h ("/galleries/".data, "galleries".data) (by simp))
      · exact absurd h4 (by simpa using h ("/data-access/".data, "data_access".data) (by simp))
      · exact absurd h5 (by simpa using h ("/reports/".data, "reports".data) (by simp))
      · exact absurd h6 (by simpa using h ("/services/".data, "services".data) (by simp))
      · rfl

/-! ## C2: the content-proximity bonus and `str.find`'s `-1` sentinel -/

/-- A document whose content contains `isro` (at offset 0) and does not
contain `xyz` anywhere. -/
def docC2 : Doc := { text_content := "isro satellite data".data }

/-- C2: the spec's proximity rule says the `+0.3` bonus requires *both*
keywords of the ordered pair to occur in the content with first occurrences
less than 50 characters apart, so for keywords `["isro", "xyz"]` the
expected score of `docC2` is `0.5` (one content match, no pair bonus).
The code instead computes `content.find` for the absent keyword `xyz`,
obtains the `-1` sentinel, finds `|0 - (-1)| = 1 < 50` and adds the bonus:
the score evaluates to `0.8`.  This contradicts both the spec's table row
("two distinct matched keywords") and the code's own comments
("Check if keyword appears near other keywords", src/chatbot.py 112-115). -/
theorem proximity_bonus_fires_for_absent_keyword :
    ¬ ("xyz".data <:+: lower docC2.text_content) ∧
    ("isro".data <:+: lower docC2.text_content) ∧
    calculate_relevance (fun _ => []) [] docC2 ["isro".data, "xyz".data]
      = 4/5 := by
  refine ⟨by decide, by decide, by decide⟩

/-! ## C8: monotonicity of the relevance score in title occurrences -/

theorem wordsAux_append_ws {c : Char} (hc : c.isWhitespace = true) (b : Str) :
    ∀ (a : Str) (cur : Str), wordsAux cur (a ++ c :: b) = wordsAux cur a ++ words b := by
  intro a
  induction a with
  | nil =>
    intro cur
    by_cases hcur : cur.isEmpty <;> simp [wordsAux, hc, hcur, words]
  | cons d a ih =>
    intro cur
    by_cases hd : d.isWhitespace
    · by_cases hcur : cur.isEmpty <;> simp [wordsAux, hd, hcur, ih]
    · simp [wordsAux, hd, ih]

/-- Appending a whitespace-separated suffix appends its words. -/
theorem words_append_ws {c : Char} (hc : c.isWhitespace = true) (a b : Str) :
    words (a ++ c :: b) = words a ++ words b :=
  wordsAux_append_ws hc b a []

/-- Appending a space-separated word to a title can only promote a
keyword's title contribution (0 → 2 → 3), never demote it. -/
theorem titleScore_le_append_sep (t s k : Str) :
    titleScore t k ≤ titleScore (t ++ ' ' :: s) k := by
  unfold titleScore
  by_cases h1 : k <:+: t
  · rw [if_pos h1, if_pos (h1.trans ⟨[], ' ' :: s, by simp⟩)]
  · rw [if_neg h1]
    by_cases h2 : (words t).any (fun w => decide (k <:+: w))
    · rw [if_pos h2]
      have h3 : ((words (t ++ ' ' :: s)).any (fun w => decide (k <:+: w))) = true := by
        rw [words_append_ws (by decide)]
        simp only [List.any_append, h2, Bool.true_or]
      split_ifs
      · norm_num
      · exact le_refl _
    · rw [if_neg h2]
      split_ifs <;> norm_num

/-- The claim's "keyword already matched against the document": the keyword
occurs (exactly, or as part of a word, in the title or description; or
exactly, in the content or category) as the scorer reads the document —
i.e. it contributes at least one of the match signals. -/
def keywordMatched (doc : Doc) (k : Str) : Prop :=
  k <:+: lower doc.title
    ∨ ((words (lower doc.title)).any (fun w => decide (k <:+: w))) = true
    ∨ k <:+: lower doc.meta_description
    ∨ ((words (lower doc.meta_description)).any (fun w => decide (k <:+: w))) = true
    ∨ k <:+: lower doc.text_content
    ∨ k <:+: lower doc.category

/-- C8: for every document, keyword list and matched keyword of that list,
adding one more occurrence of the keyword to the document's title (appended
as an additional space-separated occurrence, the rest of the document
unchanged) never lowers `calculate_relevance`.  Description, content,
category and context-history signals read fields that the transformation
leaves untouched, and each keyword's title signal can only be promoted. -/
theorem relevance_monotone_in_title_occurrence
    (preprocess : Str → List Str) (ctx : List Str) (doc : Doc)
    (keywords : List Str) (k : Str)
    (hk : k ∈ keywords) (hm : keywordMatched doc k) :
    calculate_relevance preprocess ctx doc keywords ≤
      calculate_relevance preprocess ctx
        { doc with title := doc.title ++ ' ' :: k } keywords := by
  unfold calculate_relevance
  have hsp : ' '.toLower = ' ' := by decide
  have ht : (keywords.map (titleScore (lower doc.title))).sum ≤
      (keywords.map (titleScore (lower (doc.title ++ ' ' :: k)))).sum := by
    apply List.sum_le_sum
    intro i _
    have hlow : lower (doc.title ++ ' ' :: k) =
        lower doc.title ++ ' ' :: lower k := by
      simp [lower, hsp]
    rw [hlow]
    exact titleScore_le_append_sep _ _ _
  exact add_le_add (add_le_add (add_le_add (add_le_add ht le_rfl) le_rfl) le_rfl) le_rfl

/-- Concrete document for the C8 witness. -/
def docC8 : Doc := { title := "isro data".data }

theorem relevance_monotone_witness :
    calculate_relevance (fun _ => []) [] docC8 ["isro".data] ≤
      calculate_relevance (fun _ => [])  []
        { docC8 with title := docC8.title ++ ' ' :: "isro".data } ["isro".data] :=
  relevance_monotone_in_title_occurrence (fun _ => []) [] docC8 ["isro".data]
    "isro".data (by decide) (Or.inl (by decide))

/-! ## C6/C7: summarization lemmas -/

theorem insertDesc_perm (a : Doc) (l : List Doc) :
    List.Perm (insertDesc a l) (a :: l) := by
  induction l with
  | nil => exact List.Perm.refl _
  | cons b l ih =>
    unfold insertDesc
    split_ifs with h
    · exact (ih.cons b).trans (List.Perm.swap a b l)
    · exact List.Perm.refl _

theorem sortDesc_perm (l : List Doc) : List.Perm (sortDesc l) l := by
  induction l with
  | nil => exact List.Perm.refl _
  | cons a l ih => exact (insertDesc_perm a (sortDesc l)).trans (ih.cons a)

theorem insertDesc_sorted (a : Doc) (l : List Doc)
    (h : List.Sorted (fun x y : Doc => relOf y ≤ relOf x) l) :
    List.Sorted (fun x y : Doc => relOf y ≤ relOf x) (insertDesc a l) := by
  induction l with
  | nil => simp [insertDesc]
  | cons b l ih =>
    rw [List.sorted_cons] at h
    unfold insertDesc
    split_ifs with hab
    · rw [List.sorted_cons]
      refine ⟨?_, ih h.2⟩
      intro x hx
      rcases List.mem_cons.mp ((insertDesc_perm a l).mem_iff.mp hx) with rfl | hx
      · exact le_of_lt hab
      · exact h.1 x hx
    · rw [List.sorted_cons]
      refine ⟨?_, List.sorted_cons.mpr h⟩
      intro x hx
      rcases List.mem_cons.mp hx with rfl | hx
      · exact not_lt.mp hab
      · exact le_trans (h.1 x hx) (not_lt.mp hab)

theorem sortDesc_sorted (l : List Doc) :
    List.Sorted (fun x y : Doc => relOf y ≤ relOf x) (sortDesc l) := by
  induction l with
  | nil => simp [sortDesc]
  | cons a l ih => exact insertDesc_sorted a (sortDesc l) ih

theorem joinNL_cons (s : Str) (r : List Str) : ∃ t, joinNL (s :: r) = s ++ t := by
  cases r with
  | nil => exact ⟨[], by simp [joinNL]⟩
  | cons b r => exact ⟨'\n' :: joinNL (b :: r), rfl⟩

theorem joinNL_ne_nil (s : Str) (r : List Str) (hs : s ≠ []) :
    joinNL (s :: r) ≠ [] := by
  obtain ⟨t, ht⟩ := joinNL_cons s r
  rw [ht]
  intro hcon
  exact hs (List.append_eq_nil.mp hcon).1

theorem noResultsMsg_ne_lowRelMsg (q : Str) : noResultsMsg q ≠ lowRelMsg q := by
  intro h
  have h3 := congrArg (fun l : Str => l.take 3) h
  simp [noResultsMsg, lowRelMsg, List.cons_append] at h3

theorem noResultsMsg_ne_nil (q : Str) : noResultsMsg q ≠ [] := by
  intro h
  have h1 := (List.append_eq_nil.mp h).1
  have h2 := (List.append_eq_nil.mp h1).1
  have h3 := (List.append_eq_nil.mp h2).1
  exact absurd h3 (by decide)

theorem lowRelMsg_ne_nil (q : Str) : lowRelMsg q ≠ [] := by
  intro h
  have h1 := (List.append_eq_nil.mp h).1
  have h2 := (List.append_eq_nil.mp h1).1
  exact absurd h2 (by decide)

/-- C6: for every query (and every choice of the NLTK/textwrap
collaborators and context history), summarizing an empty result list
returns the no-results message; summarizing a non-empty list in which
every document scores below the 0.5 threshold returns the low-relevance
message; those two messages are distinct; and the summarizer always
returns a non-empty string (it is a total function of its inputs — the
"never throws" part of the claim). -/
theorem summarize_results_messages
    (preprocess extractKey : Str → List Str) (wrap : Str → Str)
    (ctx : List Str) (q : Str) :
    (summarize_results preprocess extractKey wrap ctx [] q).1 = noResultsMsg q
    ∧ (∀ docs, docs ≠ [] →
        (∀ d ∈ docs, calculate_relevance preprocess ctx d (preprocess q) < 1/2) →
        (summarize_results preprocess extractKey wrap ctx docs q).1 = lowRelMsg q)
    ∧ noResultsMsg q ≠ lowRelMsg q
    ∧ (∀ docs, (summarize_results preprocess extractKey wrap ctx docs q).1 ≠ []) := by
  refine ⟨rfl, ?_, noResultsMsg_ne_lowRelMsg q, ?_⟩
  · intro docs hne hlow
    have h1 : docs.isEmpty = false := by
      simpa [List.isEmpty_iff] using hne
    have hfilter : ((sortDesc (docs.map (fun d =>
        { d with
            relevance := some (calculate_relevance preprocess ctx d (preprocess q)) }))).filter
          (fun d => decide ((1 : ℚ)/2 ≤ relOf d))) = [] := by
      rw [List.filter_eq_nil_iff]
      intro d hd
      have hd' := (sortDesc_perm _).mem_iff.mp hd
      obtain ⟨d0, hd0, rfl⟩ := List.mem_map.mp hd'
      simp only [decide_eq_true_eq, not_le, relOf, Option.getD_some]
      exact hlow d0 hd0
    simp only [summarize_results, h1, Bool.false_eq_true, if_false, hfilter,
      List.isEmpty_nil, if_true]
  · intro docs
    rcases List.eq_nil_or_concat docs with rfl | hne
    · exact noResultsMsg_ne_nil q
    · have h1 : docs.isEmpty = false := by
        rcases hne with ⟨l, a, rfl⟩
        simp [List.isEmpty_iff]
      simp only [summarize_results, h1, Bool.false_eq_true, if_false]
      split_ifs with hkept
      · exact lowRelMsg_ne_nil q
      · apply joinNL_ne_nil
        intro h2
        have h3 := (List.append_eq_nil.mp h2).1
        have h4 := (List.append_eq_nil.mp h3).1
        exact absurd h4 (by decide)

/-- Witness for the C6 theorem: a single document with title `t` and query
`foo`, under trivial collaborators (so the keyword list is empty and the
document scores 0 < 0.5): the low-relevance message is returned. -/
theorem summarize_results_messages_witness :
    (summarize_results (fun _ => []) (fun _ => []) (fun s => s) []
        [{ title := "t".data }] "foo".data).1 = lowRelMsg "foo".data :=
  (summarize_results_messages (fun _ => []) (fun _ => []) (fun s => s) []
    "foo".data).2.1 [{ title := "t".data }] (by decide) (by decide)

/-! ## C7: summarization is *not* pure on its inputs -/

/-- Concrete document for the C7 counterexample: no `relevance` key. -/
def docC7 : Doc := { title := "isro".data }

/-- C7 counterexample: `summarize_results` does *not* leave the caller's
document list unchanged.  With one input document (that has no `relevance`
key) the post-call list differs from the input list: src/chatbot.py 143
writes `doc['relevance']` into every document, and line 146 sorts the
caller's list in place. -/
theorem summarize_results_mutates_input :
    (summarize_results (fun _ => []) (fun _ => []) (fun s => s) []
        [docC7] "q".data).2 ≠ [docC7] := by decide

/-- C7 amended: `summarize_results` is pure aside from reading the context
history *except* that it annotates every input document with its computed
`relevance` score and stably sorts the caller's list in place by descending
relevance.  The post-call list is a permutation of the input documents,
each with `relevance := some (calculate_relevance …)`, and it is sorted by
descending relevance; membership is otherwise unchanged and only the
returned string is additionally produced. -/
theorem summarize_results_effect
    (preprocess extractKey : Str → List Str) (wrap : Str → Str)
    (ctx : List Str) (docs : List Doc) (q : Str) :
    List.Perm (summarize_results preprocess extractKey wrap ctx docs q).2
      (docs.map (fun d =>
        { d with
            relevance := some (calculate_relevance preprocess ctx d (preprocess q)) }))
    ∧ List.Sorted (fun x y : Doc => relOf y ≤ relOf x)
        (summarize_results preprocess extractKey wrap ctx docs q).2 := by
  rcases List.eq_nil_or_concat docs with rfl | hne
  · exact ⟨List.Perm.refl _, by simp [summarize_results]⟩
  · have h1 : docs.isEmpty = false := by
      rcases hne with ⟨l, a, rfl⟩
      simp [List.isEmpty_iff]
    simp only [summarize_results, h1, Bool.false_eq_true, if_false]
    split_ifs with hkept
    · exact ⟨sortDesc_perm _, sortDesc_sorted _⟩
    · exact ⟨sortDesc_perm _, sortDesc_sorted _⟩

/-! ## C1: store failures during search -/

/-- C1 counterexample: when the store raises (here: a connection error on
every query), `search` returns `[]` — the very same value it returns for a
store that succeeds with zero matches.  The error does not surface
(src/indexer.py 225-227 catches every exception, logs it and returns the
empty list), so a caller cannot distinguish a store failure from a query
with no matches. -/
theorem search_swallows_store_error :
    search (fun _ _ _ => Except.error "connection refused") "isro".data none 10 = [] ∧
    search (fun _ _ _ => Except.ok []) "isro".data none 10 = [] :=
  ⟨rfl, rfl⟩

/-- C1 amended: for every query, optional category and size, when the
underlying store raises during the search, `search` swallows the error and
returns the empty list (after logging); when the store returns rows,
`search` returns exactly those rows.  The spec's requirement that a store
failure surface to the caller is not met. -/
theorem search_returns_empty_on_store_error
    (store : Str → Option Str → Nat → Except String (List Doc))
    (q : Str) (cat : Option Str) (size : Nat) :
    (∀ e, store (clean_text q) cat size = Except.error e →
      search store q cat size = []) ∧
    (∀ r, store (clean_text q) cat size = Except.ok r →
      search store q cat size = r) := by
  constructor
  · intro e he
    unfold search
    rw [he]
  · intro r hr
    unfold search
    rw [hr]

theorem search_returns_empty_on_store_error_witness :
    search (fun _ _ _ => Except.error "connection refused") "isro".data none 10 = [] :=
  (search_returns_empty_on_store_error
    (fun _ _ _ => Except.error "connection refused") "isro".data none 10).1
    "connection refused" rfl

/-! ## C3: termination of the crawl traversal -/

theorem crawlLinks_isSome {crawl : Str → CrawlState → Option CrawlState}
    (h : ∀ l s, (crawl l s).isSome = true) :
    ∀ (ls : List Str) (st : CrawlState), (crawlLinks crawl ls st).isSome = true := by
  intro ls
  induction ls with
  | nil => intro st; simp [crawlLinks]
  | cons l ls ih =>
    intro st
    unfold crawlLinks
    split_ifs with hv
    · exact ih st
    · have hs := h l st
      cases hcr : crawl l st with
      | none => rw [hcr] at hs; simp at hs
      | some st2 => exact ih st2

/-- C3: for every link-graph environment (cyclic ones included), every
seed, every depth and every starting state, the crawl recursion terminates:
`max_depth + 1 - depth` units of fuel always suffice, because a URL is
marked visited before its children are recursed into and every recursive
call moves to `depth + 1` while the guard stops at `depth > max_depth`.  In
particular the fuel needed is independent of the link graph, so a cyclic
graph (such as `envAB` below, where page a links to b and page b back
to a) terminates like any other. -/
theorem crawl_page_terminates (env : Str → CrawlPage) (max_depth : Nat) :
    ∀ (fuel : Nat) (url : Str) (depth : Nat) (st : CrawlState),
      max_depth + 1 - depth ≤ fuel →
      (crawl_page env max_depth fuel url depth st).isSome = true := by
  intro fuel
  induction fuel with
  | zero =>
    intro url depth st h
    have hd : max_depth < depth := by omega
    unfold crawl_page
    rw [if_pos (Or.inr hd)]
    rfl
  | succ fuel ih =>
    intro url depth st h
    unfold crawl_page
    split_ifs with hg hf
    · rfl
    · apply crawlLinks_isSome
      intro l s
      apply ih
      have hd : ¬ max_depth < depth := fun hc => hg (Or.inr hc)
      omega
    · rfl

/-- Two-page cyclic link graph: page `a` links to `b` and page `b` links
back to `a`; every page renders successfully. -/
def envAB : Str → CrawlPage := fun u =>
  if u = "a".data then { links := ["b".data] }
  else if u = "b".data then { links := ["a".data] }
  else {}

theorem crawl_page_terminates_witness :
    (crawl_page envAB 3 4 "a".data 0 ⟨[], []⟩).isSome = true :=
  crawl_page_terminates envAB 3 4 "a".data 0 ⟨[], []⟩ (by decide)

/-! ## C4: in-session deduplication invariants -/

/-- The session invariant: the urls of the accumulated documents are
pairwise distinct and every one of them has been visited. -/
def CrawlInv (st : CrawlState) : Prop :=
  (st.content_data.map Doc.url).Nodup ∧
  ∀ u ∈ st.content_data.map Doc.url, u ∈ st.visited

/-- What one crawl step (and hence any sequence of steps) does to the
session state: the visited set only grows, documents are only appended,
distinctness of the visited set and the session invariant are preserved. -/
def CrawlPreserve (st st' : CrawlState) : Prop :=
  (∀ u ∈ st.visited, u ∈ st'.visited) ∧
  st.content_data <+: st'.content_data ∧
  (st.visited.Nodup → st'.visited.Nodup) ∧
  (CrawlInv st → CrawlInv st')

theorem crawlPreserve_refl (st : CrawlState) : CrawlPreserve st st :=
  ⟨fun _ h => h, List.prefix_refl _, id, id⟩

theorem crawlPreserve_trans {a b c : CrawlState}
    (h1 : CrawlPreserve a b) (h2 : CrawlPreserve b c) : CrawlPreserve a c :=
  ⟨fun u hu => h2.1 u (h1.1 u hu), h1.2.1.trans h2.2.1,
    fun h => h2.2.2.1 (h1.2.2.1 h), fun h => h2.2.2.2 (h1.2.2.2 h)⟩

theorem crawlLinks_preserve {crawl : Str → CrawlState → Option CrawlState}
    (h : ∀ l s s', crawl l s = some s' → CrawlPreserve s s') :
    ∀ (ls : List Str) (st st' : CrawlState),
      crawlLinks crawl ls st = some st' → CrawlPreserve st st' := by
  intro ls
  induction ls with
  | nil =>
    intro st st' he
    unfold crawlLinks at he
    injection he with he
    subst he
    exact crawlPreserve_refl st
  | cons l ls ih =>
    intro st st' he
    unfold crawlLinks at he
    split_ifs at he with hv
    · exact ih st st' he
    · cases hcr : crawl l st with
      | none => rw [hcr] at he; simp at he
      | some st2 =>
        rw [hcr] at he
        exact crawlPreserve_trans (h l st st2 hcr) (ih st2 st' he)

/-- Marking a fresh URL visited preserves the session guarantees. -/
theorem crawlPreserve_mark (st : CrawlState) (url : Str)
    (hni : url ∉ st.visited) :
    CrawlPreserve st { st with visited := url :: st.visited } := by
  refine ⟨fun u hu => List.mem_cons_of_mem url hu, List.prefix_refl _, ?_, ?_⟩
  · intro hn
    exact List.nodup_cons.mpr ⟨hni, hn⟩
  · intro hinv
    exact ⟨hinv.1, fun u hu => List.mem_cons_of_mem url (hinv.2 u hu)⟩

/-- Marking a fresh URL visited and appending its (fresh-urled) document
preserves the session guarantees. -/
theorem crawlPreserve_extract (st : CrawlState) (url : Str) (d : Doc)
    (hni : url ∉ st.visited) (hd : d.url = url) :
    CrawlPreserve st
      { visited := url :: st.visited,
        content_data := st.content_data ++ [d] } := by
  refine ⟨fun u hu => List.mem_cons_of_mem url hu, List.prefix_append _ _, ?_, ?_⟩
  · intro hn
    exact List.nodup_cons.mpr ⟨hni, hn⟩
  · intro hinv
    constructor
    · rw [List.map_append]
      rw [List.nodup_append]
      refine ⟨hinv.1, by simp, ?_⟩
      intro u hu hu'
      simp only [List.map_cons, List.map_nil, List.mem_singleton, hd] at hu'
      subst hu'
      exact hni (hinv.2 u hu)
    · intro u hu
      rw [List.map_append] at hu
      rcases List.mem_append.mp hu with hu | hu
      · exact List.mem_cons_of_mem url (hinv.2 u hu)
      · simp only [List.map_cons, List.map_nil, List.mem_singleton, hd] at hu
        subst hu
        exact List.mem_cons_self _ _

/-- The crawl recursion preserves the session guarantees. -/
theorem crawl_page_preserve (env : Str → CrawlPage) (max_depth : Nat) :
    ∀ (fuel : Nat) (url : Str) (depth : Nat) (st st' : CrawlState),
      crawl_page env max_depth fuel url depth st = some st' →
      CrawlPreserve st st' := by
  intro fuel
  induction fuel with
  | zero =>
    intro url depth st st' he
    unfold crawl_page at he
    split_ifs at he with hg
    injection he with he
    subst he
    exact crawlPreserve_refl st
  | succ fuel ih =>
    intro url depth st st' he
    have hni : url ∉ st.visited → url ∉ st.visited := id
    unfold crawl_page at he
    split_ifs at he with hg hf
    · injection he with he
      subst he
      exact crawlPreserve_refl st
    · have hv : url ∉ st.visited := fun hc => hg (Or.inl hc)
      refine crawlPreserve_trans
        (crawlPreserve_extract st url (extract_content env url) hv rfl)
        (crawlLinks_preserve ?_ _ _ _ he)
      intro l s s' h'
      exact ih l (depth + 1) s s' h'
    · injection he with he
      subst he
      exact crawlPreserve_mark st url (fun hc => hg (Or.inl hc))

/-- C4: within one crawl run, starting from a state satisfying the session
invariant (initially both lists are empty, so it holds trivially): the
visited set only grows — URLs are added, never removed; documents are only
appended; the visited set stays duplicate-free; the urls of the extracted
documents stay pairwise distinct — no URL is extracted and appended twice —
and every extracted url has been visited. -/
theorem crawl_page_extracts_each_url_once
    (env : Str → CrawlPage) (max_depth fuel depth : Nat) (url : Str)
    (st st' : CrawlState)
    (hrun : crawl_page env max_depth fuel url depth st = some st')
    (hnodup : (st.content_data.map Doc.url).Nodup)
    (hcover : ∀ u ∈ st.content_data.map Doc.url, u ∈ st.visited)
    (hvis : st.visited.Nodup) :
    (∀ u ∈ st.visited, u ∈ st'.visited) ∧
    st.content_data <+: st'.content_data ∧
    st'.visited.Nodup ∧
    (st'.content_data.map Doc.url).Nodup ∧
    (∀ u ∈ st'.content_data.map Doc.url, u ∈ st'.visited) := by
  have hp := crawl_page_preserve env max_depth fuel url depth st st' hrun
  exact ⟨hp.1, hp.2.1, hp.2.2.1 hvis, (hp.2.2.2 ⟨hnodup, hcover⟩).1,
    (hp.2.2.2 ⟨hnodup, hcover⟩).2⟩

/-- The state after crawling the cyclic two-page graph `envAB` from `a`
with `max_depth = 1`: both pages visited once, both extracted once. -/
def stAB : CrawlState :=
  { visited := ["b".data, "a".data],
    content_data :=
      [{ url := "a".data, category := "other".data, links := ["b".data] },
       { url := "b".data, category := "other".data, links := ["a".data] }] }

theorem crawl_page_extracts_each_url_once_witness :
    (∀ u ∈ (⟨[], []⟩ : CrawlState).visited, u ∈ stAB.visited) ∧
    (⟨[], []⟩ : CrawlState).content_data <+: stAB.content_data ∧
    stAB.visited.Nodup ∧
    (stAB.content_data.map Doc.url).Nodup ∧
    (∀ u ∈ stAB.content_data.map Doc.url, u ∈ stAB.visited) :=
  crawl_page_extracts_each_url_once envAB 1 2 0 "a".data ⟨[], []⟩ stAB
    (by decide) (by decide) (by decide) (by decide)

/-! ## C9: document URLs are stored verbatim, not canonicalized -/

/-- C9 counterexample: crawling the URL `http://m/a/` (trailing slash; the
page renders and has no links) produces a Document whose `url` field is
`http://m/a/` verbatim — not in canonical form, since `clean_url` maps it
to `http://m/a` — and indexing the document does not change its `url`
either: `MOSDACIndexer.index_document` applies `clean_url` only to the
entries of `links` (src/indexer.py 127), never to the `url` key. -/
theorem crawl_stores_uncanonical_url :
    crawl_page (fun _ => {}) 1 2 "http://m/a/".data 0 ⟨[], []⟩ =
      some ⟨["http://m/a/".data], [{ url := "http://m/a/".data, category := "other".data }]⟩ ∧
    clean_url "http://m/a/".data ≠ "http://m/a/".data ∧
    (index_document { url := "http://m/a/".data, category := "other".data }).url =
      "http://m/a/".data := by
  refine ⟨by decide, by decide, rfl⟩

/-- C9 amended: the pipeline keys documents by the crawl URL *verbatim*:
`extract_content` copies the crawl URL unchanged into `url`, every document
a crawl run appends carries a URL from the run's visited set (raw crawl
URLs), and `index_document` leaves `url` untouched — canonicalization via
`clean_url` is applied only to the entries of the document's `links` list
(after dropping empty ones) at indexing time. -/
theorem pipeline_url_verbatim
    (env : Str → CrawlPage) (max_depth fuel depth : Nat) (url : Str)
    (st st' : CrawlState) (d : Doc)
    (hrun : crawl_page env max_depth fuel url depth st = some st')
    (hinv : CrawlInv st) :
    (extract_content env url).url = url ∧
    (index_document d).url = d.url ∧
    (index_document d).links = (d.links.filter (fun l => ¬ l.isEmpty)).map clean_url ∧
    (∀ dd ∈ st'.content_data, dd.url ∈ st'.visited) := by
  refine ⟨rfl, rfl, rfl, ?_⟩
  have hp := crawl_page_preserve env max_depth fuel url depth st st' hrun
  intro dd hdd
  exact (hp.2.2.2 hinv).2 dd.url (List.mem_map_of_mem Doc.url hdd)

theorem pipeline_url_verbatim_witness :
    (extract_content envAB "a".data).url = "a".data ∧
    (index_document docC7).url = docC7.url ∧
    (index_document docC7).links =
      (docC7.links.filter (fun l => ¬ l.isEmpty)).map clean_url ∧
    (∀ dd ∈ stAB.content_data, dd.url ∈ stAB.visited) :=
  pipeline_url_verbatim envAB 1 2 0 "a".data ⟨[], []⟩ stAB docC7
    (by decide) ⟨by decide, by decide⟩
